import Mathlib

/-!
Formal model of the terminal Space Invaders simulation engine
(`src/space-invaders.py`, class `SpaceInvaders`).

The Python code keeps all game state as mutable attributes of one object.
We embed it as an explicit `Game` record and translate every method that
mutates game state into a function `Game → Game` (input-taking methods get
the polled key as an argument).  Rendering methods are omitted except for
the `game_over` detection hidden inside `draw_enemies`, which is genuine
state mutation and is modelled as `draw_enemies`.

Coordinates are `Int` (Python integers); counters and the level are `Nat`.
The string-valued direction becomes the two-variant `Dir`.  The polled key
(`stdscr.getch()`) is abstracted to the `Key` type: `Key.quit` stands for
ESC/`q`, `Key.reset` for `r`/`R`, `Key.none` for "no key or any other
key", exactly the equivalence classes the code distinguishes.
-/

set_option maxHeartbeats 1000000

namespace SpaceInvaders

/-- Formation movement direction; the source uses the strings
"left" and "right" (`self.enemy_direction`). -/
inductive Dir where
  | left
  | right
  deriving DecidableEq, Repr

/-- Discrete key events as classified by `handle_input`: arrow keys, space
(fire), `r`/`R` (reset), ESC/`q` (quit), and `none` for "no key this tick
or any key the code does not handle" (curses `getch` returns -1 on no
input; all unhandled codes take the same branch). -/
inductive Key where
  | left
  | right
  | fire
  | reset
  | quit
  | none
  deriving DecidableEq, Repr

/-- Enemy record: the Python dict with keys x, y, alive. -/
structure Enemy where
  x : Int
  y : Int
  alive : Bool
  deriving DecidableEq, Repr

/-- Bullet record: the Python dict with keys x, y. -/
structure Bullet where
  x : Int
  y : Int
  deriving DecidableEq, Repr

/-- The mutable game state held on the `SpaceInvaders` object. -/
structure Game where
  running : Bool
  game_over : Bool
  game_won : Bool
  current_level : Nat
  counter : Nat
  update_freq : Nat
  player_x : Int
  player_y : Int
  enemies : List Enemy
  enemy_direction : Dir
  bullets : List Bullet
  space_pressed_last_frame : Bool
  deriving DecidableEq, Repr

/-- Playfield width, `self.game_width = 20`. -/
def game_width : Int := 20

/-- Playfield height, `self.game_height = 16`. -/
def game_height : Int := 16

/-- Maximum level, `self.max_level = 3`. -/
def max_level : Nat := 3

/-- Method `init_enemies`: a grid of `current_level + 1` rows by 3 columns,
rows appended outer, columns inner, at x = 3 + col*4, y = 2 + row*2,
all alive. -/
def init_enemies (current_level : Nat) : List Enemy :=
  (List.range (current_level + 1)).flatMap (fun (row : Nat) =>
    (List.range 3).map (fun (col : Nat) =>
      { x := 3 + (col : Int) * 4, y := 2 + (row : Int) * 2, alive := true }))

/-- Method `reset_game`: reset all game variables to initial state (the
current level is kept; the caller sets it before calling). -/
def reset_game (s : Game) : Game :=
  { s with
      counter := 0
      update_freq := 5
      player_x := game_width / 2
      player_y := game_height - 1
      enemies := init_enemies s.current_level
      enemy_direction := Dir.right
      bullets := []
      game_over := false
      game_won := false }

/-- The state built by `__init__` (flags and level set, then `reset_game`).
Fields that `reset_game` overwrites are given placeholder values first,
mirroring the constructor's order of assignments. -/
def initGame : Game :=
  reset_game
    { running := true
      game_over := false
      game_won := false
      current_level := 1
      counter := 0
      update_freq := 5
      player_x := 0
      player_y := 0
      enemies := []
      enemy_direction := Dir.right
      bullets := []
      space_pressed_last_frame := false }

/-- Method `reset_level`: reset/init the next level (called after
`current_level` has been incremented). -/
def reset_level (s : Game) : Game :=
  { s with
      counter := 0
      update_freq := max (5 - s.current_level + 1) 2
      player_x := game_width / 2
      player_y := game_height - 1
      enemies := init_enemies s.current_level
      enemy_direction := Dir.right
      bullets := [] }

/-- Method `check_enemies`: if no enemy is alive, advance to the next level
(`current_level < max_level`) or set the win flag. -/
def check_enemies (s : Game) : Game :=
  if ¬ s.enemies.any (fun e => e.alive) then
    if s.current_level < max_level then
      reset_level { s with current_level := s.current_level + 1 }
    else
      { s with game_won := true }
  else s

/-- The x coordinates of the alive enemies, the values ranged over by the
min/max generator expressions in `update_enemies`. -/
def alive_xs (es : List Enemy) : List Int :=
  (es.filter (fun e => e.alive)).map (fun e => e.x)

/-- Python `min` over a nonempty list (the empty case is never reached in
`update_enemies`, which guards on an alive enemy existing). -/
def min_of : List Int → Int
  | [] => 0
  | x :: xs => xs.foldl min x

/-- Python `max` over a nonempty list. -/
def max_of : List Int → Int
  | [] => 0
  | x :: xs => xs.foldl max x

/-- Method `update_enemies`: move all enemies.  Gated on the tick counter;
reverses direction and descends at the walls (speeding up, floor 1),
otherwise translates horizontally; no-op when no enemy is alive. -/
def update_enemies (s : Game) : Game :=
  if s.game_over = false ∧ s.counter % s.update_freq = 0 then
    if s.enemies.any (fun e => e.alive) then
      if s.enemy_direction = Dir.right ∧ max_of (alive_xs s.enemies) ≥ game_width - 2 then
        { s with
            enemy_direction := Dir.left
            enemies := s.enemies.map (fun e =>
              if e.alive then { e with y := e.y + 1 } else e)
            update_freq := max (s.update_freq - 1) 1 }
      else if s.enemy_direction = Dir.left ∧ min_of (alive_xs s.enemies) ≤ 1 then
        { s with
            enemy_direction := Dir.right
            enemies := s.enemies.map (fun e =>
              if e.alive then { e with y := e.y + 1 } else e)
            update_freq := max (s.update_freq - 1) 1 }
      else
        let move_amount : Int := if s.enemy_direction = Dir.right then 1 else -1
        { s with
            enemies := s.enemies.map (fun e =>
              if e.alive then { e with x := e.x + move_amount } else e) }
    else s
  else s

/-- The index-based list comprehension
`[bullet for i, bullet in enumerate(bullets) if i not in remove]`
used by both `update_bullets` and `collision_check_bullet`. -/
def prune (bullets : List Bullet) (remove : List Nat) : List Bullet :=
  bullets.enum.filterMap (fun p => if p.1 ∈ remove then Option.none else some p.2)

/-- Method `update_bullets`: move each bullet up one row, then prune the
ones whose row dropped below 1 (indices collected during the pass, pruned
afterwards). -/
def update_bullets (s : Game) : Game :=
  if s.game_over = false then
    let moved := s.bullets.map (fun b => { b with y := b.y - 1 })
    let remove := moved.enum.filterMap (fun p =>
      if p.2.y < 1 then some p.1 else Option.none)
    { s with bullets := prune moved remove }
  else s

/-- Method `handle_input`: quit is checked first from any state; in a
terminal state only `r`/`R` (reset to level 1) is handled; during play,
arrows move the player with clamping, space fires edge-triggered on
`space_pressed_last_frame`, and any other key (or no key) clears that
flag. -/
def handle_input (s : Game) (key : Key) : Game :=
  if key = Key.quit then
    { s with running := false }
  else if s.game_over ∨ s.game_won then
    if key = Key.reset then
      reset_game { s with current_level := 1 }
    else s
  else
    match key with
    | Key.left =>
        if s.player_x > 1 then { s with player_x := s.player_x - 1 } else s
    | Key.right =>
        if s.player_x < game_width - 1 then { s with player_x := s.player_x + 1 } else s
    | Key.fire =>
        if s.space_pressed_last_frame = false then
          { s with
              bullets := s.bullets ++ [{ x := s.player_x, y := s.player_y }]
              space_pressed_last_frame := true }
        else
          { s with space_pressed_last_frame := true }
    | _ => { s with space_pressed_last_frame := false }

/-- Method `update_state`: advance and wrap the tick counter while the game
is not over. -/
def update_state (s : Game) : Game :=
  if s.game_over = false then
    { s with counter := (s.counter + 1) % (5 * 4 * 3) }
  else s

/-- Method `collision_check_enemy`: if any alive enemy shares the player's
cell, set `game_over` (the loop breaks at the first match, which is
observationally the existence check). -/
def collision_check_enemy (s : Game) : Game :=
  if s.game_over = false then
    if (s.enemies.filter (fun e => e.alive)).any
        (fun e => e.x = s.player_x ∧ e.y = s.player_y) then
      { s with game_over := true }
    else s
  else s

/-- Inner loop of `collision_check_bullet` for one enemy: walk the
enumerated bullet list; on a hit (enemy currently alive, cells equal)
record the bullet index and clear the alive flag, then keep scanning with
the updated flag, exactly as the Python loop reads `enemy['alive']` after
the in-place mutation. -/
def scanBullets (e : Enemy) : List (Nat × Bullet) → Enemy × List Nat
  | [] => (e, [])
  | (i, b) :: rest =>
      if e.alive = true ∧ b.x = e.x ∧ b.y = e.y then
        let r := scanBullets { e with alive := false } rest
        (r.1, i :: r.2)
      else
        scanBullets e rest

/-- Outer loop of `collision_check_bullet`: process each enemy against the
full enumerated bullet list, accumulating removal indices in enemy order. -/
def scanEnemies : List Enemy → List (Nat × Bullet) → List Enemy × List Nat
  | [], _ => ([], [])
  | e :: rest, bs =>
      let r := scanBullets e bs
      let rr := scanEnemies rest bs
      (r.1 :: rr.1, r.2 ++ rr.2)

/-- Method `collision_check_bullet`: nested enemy/bullet scan marking
enemies dead and collecting bullet indices; the bullets are pruned only
after the whole scan finishes. -/
def collision_check_bullet (s : Game) : Game :=
  if s.game_over = false then
    let r := scanEnemies s.enemies s.bullets.enum
    { s with enemies := r.1, bullets := prune s.bullets r.2 }
  else s

/-- The game-over detection inside the rendering method `draw_enemies`:
while drawing, an alive enemy whose row exceeds the playfield height sets
`game_over` (the loop breaks at the first such enemy; the net state effect
is the existence check). -/
def draw_enemies (s : Game) : Game :=
  if s.enemies.any (fun e => e.alive ∧ e.y > game_height) then
    { s with game_over := true }
  else s

/-- The draw half of the `run` loop body, restricted to its state effect:
in a terminal state the game-over screen is drawn (no state change),
otherwise `draw_enemies` runs and may set `game_over`. -/
def draw_phase (s : Game) : Game :=
  if s.game_over ∨ s.game_won then s else draw_enemies s

/-- One iteration of the `run` loop: `update_state`, `handle_input`, then
(unless a terminal state holds) enemy movement, bullet movement, both
collision checks and the level check, and finally the drawing phase. -/
def step (s : Game) (key : Key) : Game :=
  let s1 := update_state s
  let s2 := handle_input s1 key
  let s3 :=
    if s2.game_over ∨ s2.game_won then s2
    else
      check_enemies (collision_check_bullet (collision_check_enemy
        (update_bullets (update_enemies s2))))
  draw_phase s3

/-- Iterated `run` loop: one `step` per polled key. -/
def steps (s : Game) (keys : List Key) : Game :=
  keys.foldl step s

/-!  Helper lemmas. -/

lemma init_enemies_length (n : Nat) : (init_enemies n).length = 3 * (n + 1) := by
  rw [init_enemies, List.length_flatMap]
  simp only [Function.comp_def, List.length_map, List.length_range]
  rw [List.map_const', List.sum_replicate, List.length_range, smul_eq_mul,
    Nat.mul_comm]

lemma mem_init_enemies {n : Nat} {e : Enemy} :
    e ∈ init_enemies n ↔
    ∃ row : Nat, row < n + 1 ∧ ∃ col : Nat, col < 3 ∧
      e = { x := 3 + (col : Int) * 4, y := 2 + (row : Int) * 2, alive := true } := by
  rw [init_enemies, List.mem_flatMap]
  constructor
  · rintro ⟨row, hrow, hmem⟩
    rw [List.mem_range] at hrow
    rw [List.mem_map] at hmem
    rcases hmem with ⟨col, hcol, rfl⟩
    rw [List.mem_range] at hcol
    exact ⟨row, hrow, col, hcol, rfl⟩
  · rintro ⟨row, hrow, col, hcol, rfl⟩
    exact ⟨row, List.mem_range.mpr hrow,
      List.mem_map.mpr ⟨col, List.mem_range.mpr hcol, rfl⟩⟩

lemma init_enemies_alive {n : Nat} : ∀ e ∈ init_enemies n, e.alive = true := by
  intro e he
  rcases mem_init_enemies.mp he with ⟨row, -, col, -, rfl⟩
  rfl

lemma update_state_fields (s : Game) :
    (update_state s).enemies = s.enemies ∧ (update_state s).bullets = s.bullets ∧
    (update_state s).game_over = s.game_over ∧ (update_state s).game_won = s.game_won := by
  unfold update_state
  split_ifs <;> exact ⟨rfl, rfl, rfl, rfl⟩

lemma update_enemies_flags (s : Game) :
    (update_enemies s).game_over = s.game_over ∧
    (update_enemies s).game_won = s.game_won ∧
    (update_enemies s).bullets = s.bullets ∧
    (update_enemies s).player_x = s.player_x ∧
    (update_enemies s).player_y = s.player_y := by
  unfold update_enemies
  split_ifs <;> exact ⟨rfl, rfl, rfl, rfl, rfl⟩

lemma update_bullets_flags (s : Game) :
    (update_bullets s).game_over = s.game_over ∧
    (update_bullets s).game_won = s.game_won ∧
    (update_bullets s).enemies = s.enemies ∧
    (update_bullets s).player_x = s.player_x ∧
    (update_bullets s).player_y = s.player_y := by
  unfold update_bullets
  split_ifs <;> exact ⟨rfl, rfl, rfl, rfl, rfl⟩

lemma collision_check_enemy_fields (s : Game) :
    (collision_check_enemy s).enemies = s.enemies ∧
    (collision_check_enemy s).bullets = s.bullets ∧
    (collision_check_enemy s).game_won = s.game_won := by
  unfold collision_check_enemy
  split_ifs <;> exact ⟨rfl, rfl, rfl⟩

lemma collision_check_bullet_flags (s : Game) :
    (collision_check_bullet s).game_over = s.game_over ∧
    (collision_check_bullet s).game_won = s.game_won := by
  unfold collision_check_bullet
  split_ifs <;> exact ⟨rfl, rfl⟩

lemma check_enemies_game_over (s : Game) :
    (check_enemies s).game_over = s.game_over := by
  unfold check_enemies reset_level
  split_ifs <;> rfl

lemma draw_phase_game_over_true (s : Game) (h : s.game_over = true) :
    (draw_phase s).game_over = true := by
  unfold draw_phase draw_enemies
  split_ifs <;> first | exact h | rfl

lemma check_enemies_won_cases (t : Game) (h : t.game_won = false) :
    (check_enemies t).game_won = false ∨
    ((check_enemies t).enemies.any (fun e => e.alive) = false ∧
      (check_enemies t).game_won = true) := by
  rw [check_enemies]
  by_cases h1 : t.enemies.any (fun e => e.alive) = true
  · rw [if_neg (by simp [h1])]
    exact Or.inl h
  · have h1' : t.enemies.any (fun e => e.alive) = false := by
      cases hb : t.enemies.any (fun e => e.alive)
      · rfl
      · exact absurd hb h1
    rw [if_pos (by simp [h1'])]
    by_cases h2 : t.current_level < max_level
    · rw [if_pos h2]
      exact Or.inl h
    · rw [if_neg h2]
      exact Or.inr ⟨h1', rfl⟩

lemma step_playing_eq (s : Game) (key : Key)
    (hover : (handle_input (update_state s) key).game_over = false)
    (hwon : (handle_input (update_state s) key).game_won = false) :
    step s key = draw_phase (check_enemies (collision_check_bullet
      (collision_check_enemy (update_bullets (update_enemies
        (handle_input (update_state s) key)))))) := by
  simp only [step]
  rw [if_neg]
  simp [hover, hwon]

/-- Indexing a mapped list at the same position. -/
lemma get_map_of_val_eq (f : Enemy → Enemy) (l : List Enemy)
    (i : Fin l.length) (j : Fin (l.map f).length) (h : i.val = j.val) :
    (l.map f).get j = f (l.get i) := by
  rcases i with ⟨iv, hi⟩
  rcases j with ⟨jv, hj⟩
  simp only at h
  subst h
  simp [List.get_eq_getElem]

/-- Relation between enemy lists across a descent advance: same length,
and index-wise every alive enemy keeps its x and alive flag and gains
exactly 1 in y, while dead enemies are unchanged. -/
def AdvanceDown (old new : List Enemy) : Prop :=
  new.length = old.length ∧
  ∀ (i : Fin old.length) (j : Fin new.length), i.val = j.val →
    (new.get j).x = (old.get i).x ∧
    (new.get j).alive = (old.get i).alive ∧
    (new.get j).y = (old.get i).y + (if (old.get i).alive = true then 1 else 0)

lemma advanceDown_map (l : List Enemy) :
    AdvanceDown l (l.map (fun e => if e.alive then { e with y := e.y + 1 } else e)) := by
  refine ⟨by simp, ?_⟩
  intro i j hij
  rw [get_map_of_val_eq _ _ i j hij]
  by_cases h : (l.get i).alive = true
  · rw [List.get_eq_getElem] at h
    simp [h]
  · rw [List.get_eq_getElem] at h
    simp [h]

/-- C1: when a formation advance fires (tick counter divisible by
`update_freq`, game not over) with direction right and the rightmost alive
enemy's x at least `game_width - 2`, the advance flips the direction to
left, increments every alive enemy's y by exactly 1 leaving x and the
alive flag unchanged (dead enemies untouched), and sets `update_freq` to
`max (update_freq - 1) 1`, so it decreases by 1 but never below 1; the
symmetric rule holds for direction left when the leftmost alive x is at
most 1; when no enemy is alive the advance is a no-op. -/
theorem C1_formation_advance (s : Game)
    (hover : s.game_over = false)
    (htick : s.counter % s.update_freq = 0) :
    (s.enemies.any (fun e => e.alive) = true →
      s.enemy_direction = Dir.right →
      max_of (alive_xs s.enemies) ≥ game_width - 2 →
      (update_enemies s).enemy_direction = Dir.left ∧
      (update_enemies s).update_freq = max (s.update_freq - 1) 1 ∧
      1 ≤ (update_enemies s).update_freq ∧
      AdvanceDown s.enemies (update_enemies s).enemies) ∧
    (s.enemies.any (fun e => e.alive) = true →
      s.enemy_direction = Dir.left →
      min_of (alive_xs s.enemies) ≤ 1 →
      (update_enemies s).enemy_direction = Dir.right ∧
      (update_enemies s).update_freq = max (s.update_freq - 1) 1 ∧
      1 ≤ (update_enemies s).update_freq ∧
      AdvanceDown s.enemies (update_enemies s).enemies) ∧
    (s.enemies.any (fun e => e.alive) = false → update_enemies s = s) := by
  refine ⟨?_, ?_, ?_⟩
  · intro halive hdir hrm
    have hbranch : update_enemies s =
        { s with
            enemy_direction := Dir.left
            enemies := s.enemies.map (fun e =>
              if e.alive then { e with y := e.y + 1 } else e)
            update_freq := max (s.update_freq - 1) 1 } := by
      rw [update_enemies, if_pos ⟨hover, htick⟩, if_pos halive, if_pos ⟨hdir, hrm⟩]
    rw [hbranch]
    exact ⟨rfl, rfl, le_max_right _ _, advanceDown_map s.enemies⟩
  · intro halive hdir hlm
    have hnr : ¬ (s.enemy_direction = Dir.right ∧
        max_of (alive_xs s.enemies) ≥ game_width - 2) := by
      rintro ⟨h, -⟩
      rw [hdir] at h
      exact Dir.noConfusion h
    have hbranch : update_enemies s =
        { s with
            enemy_direction := Dir.right
            enemies := s.enemies.map (fun e =>
              if e.alive then { e with y := e.y + 1 } else e)
            update_freq := max (s.update_freq - 1) 1 } := by
      rw [update_enemies, if_pos ⟨hover, htick⟩, if_pos halive, if_neg hnr,
        if_pos ⟨hdir, hlm⟩]
    rw [hbranch]
    exact ⟨rfl, rfl, le_max_right _ _, advanceDown_map s.enemies⟩
  · intro hnone
    rw [update_enemies, if_pos ⟨hover, htick⟩, if_neg (by simp [hnone])]

/-- Concrete state for exercising the right-wall advance: a single alive
enemy at x = 18 = game_width - 2, direction right, tick divisible. -/
def C1state : Game :=
  { initGame with enemies := [{ x := 18, y := 2, alive := true }] }

theorem C1_formation_advance_witness :
    (update_enemies C1state).enemy_direction = Dir.left ∧
    (update_enemies C1state).update_freq = 4 ∧
    (update_enemies C1state).enemies = [{ x := 18, y := 3, alive := true }] := by
  have h := (C1_formation_advance C1state (by decide) (by decide)).1
    (by decide) (by decide) (by decide)
  refine ⟨h.1, ?_, by decide⟩
  rw [h.2.1]
  decide

lemma handle_input_left_eq (s : Game)
    (hover : s.game_over = false) (hwon : s.game_won = false) :
    handle_input s Key.left =
      if s.player_x > 1 then { s with player_x := s.player_x - 1 } else s := by
  rw [handle_input, if_neg (by decide), if_neg (by simp [hover, hwon])]

lemma handle_input_right_eq (s : Game)
    (hover : s.game_over = false) (hwon : s.game_won = false) :
    handle_input s Key.right =
      if s.player_x < game_width - 1 then { s with player_x := s.player_x + 1 } else s := by
  rw [handle_input, if_neg (by decide), if_neg (by simp [hover, hwon])]

lemma handle_input_none_eq (s : Game)
    (hover : s.game_over = false) (hwon : s.game_won = false) :
    handle_input s Key.none = { s with space_pressed_last_frame := false } := by
  rw [handle_input, if_neg (by decide), if_neg (by simp [hover, hwon])]
  all_goals decide

/-- C3 counterexample: from the initial state with polled keys fire, left,
fire, the third tick opens a new run of consecutive fire ticks (the
previous tick polled an arrow key), yet its `handle_input` call creates no
bullet: the arrow-key branch of `handle_input` does not clear
`space_pressed_last_frame`, so the second discrete press is swallowed and
the total bullet count stays 1 where the claim requires a bullet per
run/press. -/
theorem C3_counterexample :
    (steps initGame [Key.fire]).bullets.length = 1 ∧
    (steps initGame [Key.fire, Key.left]).space_pressed_last_frame = true ∧
    (handle_input (update_state (steps initGame [Key.fire, Key.left])) Key.fire).bullets
      = (steps initGame [Key.fire, Key.left]).bullets ∧
    (steps initGame [Key.fire, Key.left, Key.fire]).bullets.length = 1 := by
  exact ⟨by decide, by decide, by decide, by decide⟩

/-- C3 (amended): fire is edge-triggered through the flag
`space_pressed_last_frame`: during play a fire tick appends exactly one
bullet at the player's cell iff the flag is clear, and always sets the
flag; arrow-key ticks leave the flag (and the bullet list) unchanged; a
tick polling no key (or an unhandled key) clears the flag and creates no
bullet.  Hence a run of consecutive fire ticks creates at most one
bullet, on its first tick, and exactly one iff the flag is clear when the
run begins — a discrete press separated from the previous one only by
arrow-key ticks creates no bullet. -/
theorem C3_fire_edge_trigger (s : Game)
    (hover : s.game_over = false) (hwon : s.game_won = false) :
    (s.space_pressed_last_frame = false →
      (handle_input s Key.fire).bullets
        = s.bullets ++ [{ x := s.player_x, y := s.player_y }] ∧
      (handle_input s Key.fire).space_pressed_last_frame = true) ∧
    (s.space_pressed_last_frame = true →
      (handle_input s Key.fire).bullets = s.bullets ∧
      (handle_input s Key.fire).space_pressed_last_frame = true) ∧
    ((handle_input s Key.left).space_pressed_last_frame = s.space_pressed_last_frame ∧
      (handle_input s Key.left).bullets = s.bullets) ∧
    ((handle_input s Key.right).space_pressed_last_frame = s.space_pressed_last_frame ∧
      (handle_input s Key.right).bullets = s.bullets) ∧
    ((handle_input s Key.none).space_pressed_last_frame = false ∧
      (handle_input s Key.none).bullets = s.bullets) := by
  refine ⟨?_, ?_, ?_, ?_, ?_⟩
  · intro hflag
    rw [handle_input, if_neg (by decide), if_neg (by simp [hover, hwon])]
    simp only [hflag]
    exact ⟨by simp, by simp⟩
  · intro hflag
    rw [handle_input, if_neg (by decide), if_neg (by simp [hover, hwon])]
    simp only [hflag]
    exact ⟨by simp, by simp⟩
  · rw [handle_input_left_eq s hover hwon]
    split_ifs <;> exact ⟨rfl, rfl⟩
  · rw [handle_input_right_eq s hover hwon]
    split_ifs <;> exact ⟨rfl, rfl⟩
  · rw [handle_input_none_eq s hover hwon]
    exact ⟨rfl, rfl⟩

theorem C3_fire_edge_trigger_witness :
    (handle_input initGame Key.fire).bullets = [{ x := 10, y := 15 }] ∧
    (handle_input initGame Key.fire).space_pressed_last_frame = true ∧
    (handle_input initGame Key.none).space_pressed_last_frame = false := by
  have h := C3_fire_edge_trigger initGame (by decide) (by decide)
  have h1 := h.1 (by decide)
  refine ⟨?_, h1.2, h.2.2.2.2.1⟩
  rw [h1.1]
  decide

/-- C4: if, at the point in the tick where `collision_check_enemy` runs
(after input, enemy movement and bullet movement), an alive enemy
occupies the player's cell, then `collision_check_enemy` sets `game_over`
(the existence of one matching enemy suffices — the source loop breaks at
the first match) and the whole tick ends with `game_over = true`,
regardless of positions earlier in the tick. -/
theorem C4_player_enemy_collision (s : Game) (key : Key)
    (hover : (handle_input (update_state s) key).game_over = false)
    (hwon : (handle_input (update_state s) key).game_won = false)
    (hcol : ∃ e ∈ (update_bullets (update_enemies
        (handle_input (update_state s) key))).enemies,
      e.alive = true ∧
      e.x = (update_bullets (update_enemies
        (handle_input (update_state s) key))).player_x ∧
      e.y = (update_bullets (update_enemies
        (handle_input (update_state s) key))).player_y) :
    (collision_check_enemy (update_bullets (update_enemies
        (handle_input (update_state s) key)))).game_over = true ∧
    (step s key).game_over = true := by
  set mid := update_bullets (update_enemies (handle_input (update_state s) key)) with hmid
  have hmidover : mid.game_over = false := by
    rw [hmid, (update_bullets_flags _).1, (update_enemies_flags _).1, hover]
  have hany : (mid.enemies.filter (fun e => e.alive)).any
      (fun e => e.x = mid.player_x ∧ e.y = mid.player_y) = true := by
    rcases hcol with ⟨e, he, ha, hx, hy⟩
    rw [List.any_eq_true]
    exact ⟨e, List.mem_filter.mpr ⟨he, ha⟩, by simp [hx, hy]⟩
  have hset : collision_check_enemy mid = { mid with game_over := true } := by
    rw [collision_check_enemy, if_pos hmidover, if_pos hany]
  refine ⟨by rw [hset], ?_⟩
  rw [step_playing_eq s key hover hwon]
  apply draw_phase_game_over_true
  rw [check_enemies_game_over, (collision_check_bullet_flags _).1, hset]

/-- Concrete state used to exercise C4: a lone alive enemy already on the
player's start cell; with no input and an off-phase counter the enemy does
not move during the tick, so it sits on the player at the collision
check. -/
def C4state : Game :=
  { initGame with enemies := [{ x := 10, y := 15, alive := true }] }

theorem C4_player_enemy_collision_witness :
    (step C4state Key.none).game_over = true := by
  exact (C4_player_enemy_collision C4state Key.none (by decide) (by decide)
    (by decide)).2

/-- C5: if, at the point in the tick where the drawing phase runs (after
movement, collisions and the level check), some alive enemy's row
strictly exceeds `game_height`, the tick ends with `game_over = true`;
moreover the detection is not performed by the formation mover:
`update_enemies` never touches `game_over` (the flag is set by the
caller's drawing phase, `draw_enemies`). -/
theorem C5_enemy_past_bottom (s : Game) (key : Key)
    (hover : (handle_input (update_state s) key).game_over = false)
    (hwon : (handle_input (update_state s) key).game_won = false)
    (hbelow : ∃ e ∈ (check_enemies (collision_check_bullet (collision_check_enemy
        (update_bullets (update_enemies
          (handle_input (update_state s) key)))))).enemies,
      e.alive = true ∧ e.y > game_height) :
    (step s key).game_over = true ∧
    (∀ t : Game, (update_enemies t).game_over = t.game_over) := by
  refine ⟨?_, fun t => (update_enemies_flags t).1⟩
  set mid := check_enemies (collision_check_bullet (collision_check_enemy
    (update_bullets (update_enemies (handle_input (update_state s) key))))) with hmid
  rw [step_playing_eq s key hover hwon, ← hmid]
  by_cases hmo : mid.game_over = true
  · exact draw_phase_game_over_true mid hmo
  · have hmo' : mid.game_over = false := by
      cases hb : mid.game_over
      · rfl
      · exact absurd hb hmo
    have hprewon : (collision_check_bullet (collision_check_enemy
        (update_bullets (update_enemies
          (handle_input (update_state s) key))))).game_won = false := by
      rw [(collision_check_bullet_flags _).2, (collision_check_enemy_fields _).2.2,
        (update_bullets_flags _).2.1, (update_enemies_flags _).2.1, hwon]
    have hmw : mid.game_won = false := by
      rcases check_enemies_won_cases _ hprewon with hc | ⟨hdead, -⟩
      · exact hc
      · exfalso
        rcases hbelow with ⟨e, he, ha, -⟩
        have : mid.enemies.any (fun e => e.alive) = true :=
          List.any_eq_true.mpr ⟨e, he, ha⟩
        rw [hmid] at this
        rw [this] at hdead
        exact Bool.noConfusion hdead
    have hdraw : draw_phase mid = draw_enemies mid := by
      rw [draw_phase, if_neg]
      simp [hmo', hmw]
    rw [hdraw, draw_enemies, if_pos]
    rcases hbelow with ⟨e, he, ha, hy⟩
    rw [List.any_eq_true]
    refine ⟨e, ?_, by simp [ha, hy]⟩
    rw [hmid]
    exact he

/-- Concrete state used to exercise C5: a lone alive enemy one row past
the bottom boundary (y = 17 > 16), away from the player's column; with no
input and an off-phase counter it does not move during the tick. -/
def C5state : Game :=
  { initGame with enemies := [{ x := 3, y := 17, alive := true }] }

theorem C5_enemy_past_bottom_witness :
    (step C5state Key.none).game_over = true := by
  exact (C5_enemy_past_bottom C5state Key.none (by decide) (by decide)
    (by decide)).1

/-- C6: when no enemy is alive and `current_level < max_level`, the level
evaluation (`check_enemies`) increments the level by 1 and, through
`reset_level`, installs a full fresh all-alive formation sized for the
new level (3 columns, new level + 1 rows), clears the bullet list, puts
the player back at the start position, and resets `update_freq` to the
base value `max (5 - new_level + 1) 2`, which is antitone in the level
and floored at 2. -/
theorem C6_level_clear (s : Game)
    (hdead : s.enemies.any (fun e => e.alive) = false)
    (hlvl : s.current_level < max_level) :
    (check_enemies s).current_level = s.current_level + 1 ∧
    (check_enemies s).enemies = init_enemies (s.current_level + 1) ∧
    (check_enemies s).enemies.length = 3 * (s.current_level + 1 + 1) ∧
    (∀ e ∈ (check_enemies s).enemies, e.alive = true) ∧
    (check_enemies s).bullets = [] ∧
    (check_enemies s).player_x = game_width / 2 ∧
    (check_enemies s).player_y = game_height - 1 ∧
    (check_enemies s).enemy_direction = Dir.right ∧
    (check_enemies s).counter = 0 ∧
    (check_enemies s).update_freq = max (5 - (s.current_level + 1) + 1) 2 ∧
    2 ≤ (check_enemies s).update_freq ∧
    (∀ l1 l2 : Nat, l1 ≤ l2 → max (5 - l2 + 1) 2 ≤ max (5 - l1 + 1) 2) := by
  have hbranch : check_enemies s =
      reset_level { s with current_level := s.current_level + 1 } := by
    rw [check_enemies, if_pos (by simp [hdead]), if_pos hlvl]
  rw [hbranch]
  refine ⟨rfl, rfl, ?_, ?_, rfl, rfl, rfl, rfl, rfl, rfl, le_max_right _ _, ?_⟩
  · exact init_enemies_length (s.current_level + 1)
  · exact init_enemies_alive
  · intro l1 l2 h
    exact max_le_max (by omega) (le_refl 2)

/-- Concrete level-clear state: level 1 with the whole formation dead. -/
def C6state : Game :=
  { initGame with enemies := [{ x := 3, y := 2, alive := false }] }

theorem C6_level_clear_witness :
    (check_enemies C6state).current_level = 2 ∧
    (check_enemies C6state).enemies.length = 9 ∧
    (check_enemies C6state).bullets = [] ∧
    (check_enemies C6state).update_freq = 4 := by
  have h := C6_level_clear C6state (by decide) (by decide)
  refine ⟨h.1, ?_, h.2.2.2.2.1, ?_⟩
  · rw [h.2.2.1]
    decide
  · rw [h.2.2.2.2.2.2.2.2.2.1]
    decide

/-- C8: in a terminal state (`game_over` or `game_won`), the reset key
makes `handle_input` restore level 1, a freshly initialized all-alive
level-1 formation moving right, the player at the start position, an
empty bullet list, and the Playing state (both terminal flags cleared);
during play the reset key is not accepted: it falls through to the
catch-all branch, which only clears the fire flag. -/
theorem C8_reset (s : Game) :
    ((s.game_over = true ∨ s.game_won = true) →
      (handle_input s Key.reset).current_level = 1 ∧
      (handle_input s Key.reset).enemies = init_enemies 1 ∧
      (∀ e ∈ (handle_input s Key.reset).enemies, e.alive = true) ∧
      (handle_input s Key.reset).enemy_direction = Dir.right ∧
      (handle_input s Key.reset).player_x = game_width / 2 ∧
      (handle_input s Key.reset).player_y = game_height - 1 ∧
      (handle_input s Key.reset).bullets = [] ∧
      (handle_input s Key.reset).game_over = false ∧
      (handle_input s Key.reset).game_won = false) ∧
    (s.game_over = false → s.game_won = false →
      handle_input s Key.reset = { s with space_pressed_last_frame := false }) := by
  constructor
  · intro hterm
    have hbranch : handle_input s Key.reset =
        reset_game { s with current_level := 1 } := by
      rw [handle_input, if_neg (by decide), if_pos (by simpa using hterm),
        if_pos rfl]
      all_goals decide
    rw [hbranch]
    exact ⟨rfl, rfl, init_enemies_alive, rfl, rfl, rfl, rfl, rfl, rfl⟩
  · intro hover hwon
    rw [handle_input, if_neg (by decide), if_neg (by simp [hover, hwon])]
    all_goals decide

/-- Concrete terminal state: the initial state with `game_over` set. -/
def C8state : Game :=
  { initGame with game_over := true }

theorem C8_reset_witness :
    (handle_input C8state Key.reset).current_level = 1 ∧
    (handle_input C8state Key.reset).game_over = false ∧
    (handle_input C8state Key.reset).bullets = [] ∧
    handle_input initGame Key.reset
      = { initGame with space_pressed_last_frame := false } := by
  have h := (C8_reset C8state).1 (Or.inl rfl)
  exact ⟨h.1, h.2.2.2.2.2.2.2.1, h.2.2.2.2.2.2.1,
    (C8_reset initGame).2 (by decide) (by decide)⟩

lemma handle_input_terminal (s : Game) (k : Key)
    (hterm : s.game_over = true ∨ s.game_won = true) (hk : k ≠ Key.reset) :
    handle_input s k = s ∨ handle_input s k = { s with running := false } := by
  cases k
  case quit =>
    right
    rw [handle_input, if_pos rfl]
    all_goals decide
  case reset => exact absurd rfl hk
  all_goals
    (left;
     rw [handle_input, if_neg (by decide), if_pos (by simpa using hterm),
       if_neg (by decide)];
     all_goals decide)

lemma step_won_frozen (s : Game) (k : Key)
    (hwon : s.game_won = true) (hk : k ≠ Key.reset) :
    (step s k).enemies = s.enemies ∧ (step s k).bullets = s.bullets ∧
    (step s k).game_won = true := by
  have h1 := update_state_fields s
  have h1w : (update_state s).game_won = true := by rw [h1.2.2.2, hwon]
  rcases handle_input_terminal (update_state s) k (Or.inr h1w) hk with h2 | h2
  · have hstep : step s k = handle_input (update_state s) k := by
      simp only [step]
      rw [if_pos (Or.inr (by rw [h2, h1w]))]
      rw [draw_phase, if_pos (Or.inr (by rw [h2, h1w]))]
    rw [hstep, h2]
    exact ⟨h1.1, h1.2.1, h1w⟩
  · have hstep : step s k = handle_input (update_state s) k := by
      simp only [step]
      rw [if_pos (Or.inr (by rw [h2, h1w]))]
      rw [draw_phase, if_pos (Or.inr (by rw [h2, h1w]))]
    rw [hstep, h2]
    exact ⟨h1.1, h1.2.1, h1w⟩

/-- C7: `check_enemies` turns a Playing state with no alive enemy at
`current_level = max_level` into the Won state, and from any Won state the
simulation is frozen: for every sequence of subsequent ticks none of which
polls the reset key, the enemy list (hence every enemy position and alive
flag) and the bullet list are unchanged and the state stays Won — enemy
advance, bullet advance, collision checks and level evaluation are all
suppressed. -/
theorem C7_win_freeze (s : Game) (keys : List Key) :
    (∀ t : Game, t.enemies.any (fun e => e.alive) = false →
      t.current_level = max_level → (check_enemies t).game_won = true) ∧
    (s.game_won = true → (∀ k ∈ keys, k ≠ Key.reset) →
      (steps s keys).enemies = s.enemies ∧
      (steps s keys).bullets = s.bullets ∧
      (steps s keys).game_won = true) := by
  constructor
  · intro t hdead hlvl
    rw [check_enemies, if_pos (by simp [hdead]), if_neg (by rw [hlvl]; omega)]
  · intro hwon hkeys
    induction keys generalizing s with
    | nil => exact ⟨rfl, rfl, hwon⟩
    | cons k ks ih =>
        have hk : k ≠ Key.reset := hkeys k (List.mem_cons_self k ks)
        have hfrozen := step_won_frozen s k hwon hk
        have hrest := ih (step s k) hfrozen.2.2
          (fun k' hk' => hkeys k' (List.mem_cons_of_mem k hk'))
        refine ⟨?_, ?_, hrest.2.2⟩
        · rw [show steps s (k :: ks) = steps (step s k) ks from rfl,
            hrest.1, hfrozen.1]
        · rw [show steps s (k :: ks) = steps (step s k) ks from rfl,
            hrest.2.1, hfrozen.2.1]

/-- Concrete Won state: the win flag set over a half-dead formation and a
bullet in flight. -/
def C7state : Game :=
  { initGame with
      game_won := true
      enemies := [{ x := 5, y := 6, alive := true }, { x := 9, y := 6, alive := false }]
      bullets := [{ x := 4, y := 9 }] }

/-- Concrete Playing state at the top level with every enemy destroyed. -/
def C7cleared : Game :=
  { C7state with enemies := [], game_won := false, current_level := 3 }

theorem C7_win_freeze_witness :
    (check_enemies C7cleared).game_won = true ∧
    (steps C7state [Key.fire, Key.none, Key.left, Key.quit]).enemies
      = C7state.enemies ∧
    (steps C7state [Key.fire, Key.none, Key.left, Key.quit]).bullets
      = C7state.bullets ∧
    (steps C7state [Key.fire, Key.none, Key.left, Key.quit]).game_won = true := by
  have h := C7_win_freeze C7state [Key.fire, Key.none, Key.left, Key.quit]
  have h2 := h.2 (by decide) (by decide)
  exact ⟨h.1 _ (by decide) (by decide), h2.1, h2.2.1, h2.2.2⟩

/-!  Bounds for the fold-based minimum/maximum used by `update_enemies`. -/

lemma le_foldl_max_init (l : List Int) (a : Int) : a ≤ l.foldl max a := by
  induction l generalizing a with
  | nil => exact le_refl a
  | cons b bs ih => exact le_trans (le_max_left a b) (ih (max a b))

lemma le_foldl_max_mem (l : List Int) (a x : Int) (h : x ∈ l) : x ≤ l.foldl max a := by
  induction l generalizing a with
  | nil => cases h
  | cons b bs ih =>
      rcases List.mem_cons.mp h with rfl | h
      · exact le_trans (le_max_right a x) (le_foldl_max_init bs (max a x))
      · exact ih (max a b) h

lemma foldl_min_init_le (l : List Int) (a : Int) : l.foldl min a ≤ a := by
  induction l generalizing a with
  | nil => exact le_refl a
  | cons b bs ih => exact le_trans (ih (min a b)) (min_le_left a b)

lemma foldl_min_mem_le (l : List Int) (a x : Int) (h : x ∈ l) : l.foldl min a ≤ x := by
  induction l generalizing a with
  | nil => cases h
  | cons b bs ih =>
      rcases List.mem_cons.mp h with rfl | h
      · exact le_trans (foldl_min_init_le bs (min a x)) (min_le_right a x)
      · exact ih (min a b) h

lemma le_max_of_mem {l : List Int} {x : Int} (h : x ∈ l) : x ≤ max_of l := by
  cases l with
  | nil => cases h
  | cons a as =>
      rw [max_of]
      rcases List.mem_cons.mp h with rfl | h
      · exact le_foldl_max_init as x
      · exact le_foldl_max_mem as a x h

lemma min_of_le_mem {l : List Int} {x : Int} (h : x ∈ l) : min_of l ≤ x := by
  cases l with
  | nil => cases h
  | cons a as =>
      rw [min_of]
      rcases List.mem_cons.mp h with rfl | h
      · exact foldl_min_init_le as x
      · exact foldl_min_mem_le as a x h

lemma mem_alive_xs {es : List Enemy} {e : Enemy} (he : e ∈ es)
    (ha : e.alive = true) : e.x ∈ alive_xs es :=
  List.mem_map.mpr ⟨e, List.mem_filter.mpr ⟨he, ha⟩, rfl⟩

/-!  Cell distinctness of alive enemies. -/

/-- Two enemies do not share a grid cell. -/
def cellNe (a b : Enemy) : Prop := ¬ (a.x = b.x ∧ a.y = b.y)

lemma init_enemies_pairwise (n : Nat) : (init_enemies n).Pairwise cellNe := by
  have h : ((init_enemies n).map (fun e => (e.x, e.y))).Nodup := by
    rw [init_enemies, List.map_flatMap]
    rw [List.nodup_flatMap]
    constructor
    · intro row hrow
      rw [List.map_map]
      apply List.Nodup.map ?inj (List.nodup_range 3)
      intro c1 c2 hc
      simp only [Function.comp_def, Prod.mk.injEq] at hc
      omega
    · apply List.Pairwise.imp ?imp (List.pairwise_lt_range (n + 1))
      intro r1 r2 hlt p hp1 hp2
      simp only [List.map_map, List.mem_map] at hp1 hp2
      rcases hp1 with ⟨c1, -, rfl⟩
      rcases hp2 with ⟨c2, -, hp⟩
      simp only [Function.comp_def, Prod.mk.injEq] at hp
      omega
  rw [List.Nodup, List.pairwise_map] at h
  apply List.Pairwise.imp ?impc h
  intro a b hab ⟨hx, hy⟩
  exact hab (by rw [hx, hy])

/-- Alive-preservation plus cell-compatibility transports the alive-cells
distinctness invariant across an in-place enemy update. -/
lemma pairwise_filter_map (es : List Enemy) (f : Enemy → Enemy)
    (halive : ∀ e, (f e).alive = true → e.alive = true)
    (hcell : ∀ a b, a.alive = true → b.alive = true → cellNe a b → cellNe (f a) (f b)) :
    (es.filter (fun e => e.alive)).Pairwise cellNe →
    ((es.map f).filter (fun e => e.alive)).Pairwise cellNe := by
  induction es with
  | nil =>
      intro h
      simp
  | cons e rest ih =>
      intro h
      rw [List.map_cons]
      by_cases hfe : (f e).alive = true
      · have he : e.alive = true := halive e hfe
        rw [List.filter_cons_of_pos hfe]
        rw [List.filter_cons_of_pos he] at h
        rw [List.pairwise_cons] at h ⊢
        refine ⟨?_, ih h.2⟩
        intro b' hb'
        rw [List.mem_filter] at hb'
        rcases List.mem_map.mp hb'.1 with ⟨b, hb, rfl⟩
        have hbal : b.alive = true := halive b hb'.2
        exact hcell e b he hbal (h.1 b (List.mem_filter.mpr ⟨hb, hbal⟩))
      · rw [List.filter_cons_of_neg hfe]
        by_cases he : e.alive = true
        · rw [List.filter_cons_of_pos he] at h
          exact ih (List.pairwise_cons.mp h).2
        · rw [List.filter_cons_of_neg he] at h
          exact ih h

/-!  Characterization of the bullet-collision scan. -/

lemma scanBullets_dead (e : Enemy) (bs : List (Nat × Bullet))
    (h : e.alive = false) : scanBullets e bs = (e, []) := by
  induction bs with
  | nil => rfl
  | cons p rest ih =>
      rcases p with ⟨i, b⟩
      rw [scanBullets, if_neg]
      · exact ih
      · rintro ⟨ha, -⟩
        rw [h] at ha
        exact Bool.noConfusion ha

lemma scanBullets_cases (e : Enemy) (bs : List (Nat × Bullet)) :
    (scanBullets e bs = (e, [])) ∨
    (e.alive = true ∧ (scanBullets e bs).1 = { e with alive := false } ∧
      ∃ i b, (i, b) ∈ bs ∧ b.x = e.x ∧ b.y = e.y ∧ (scanBullets e bs).2 = [i]) := by
  induction bs with
  | nil => exact Or.inl rfl
  | cons p rest ih =>
      rcases p with ⟨i, b⟩
      by_cases hc : e.alive = true ∧ b.x = e.x ∧ b.y = e.y
      · right
        have hdead := scanBullets_dead { e with alive := false } rest rfl
        rw [scanBullets, if_pos hc]
        refine ⟨hc.1, ?_, i, b, List.mem_cons_self (i, b) rest, hc.2.1, hc.2.2, ?_⟩
        · rw [hdead]
        · rw [hdead]
      · rw [scanBullets, if_neg hc]
        rcases ih with h | ⟨ha, h1, i', b', hmem, hbx, hby, h2⟩
        · exact Or.inl h
        · exact Or.inr ⟨ha, h1, i', b', List.mem_cons_of_mem _ hmem, hbx, hby, h2⟩

lemma scanBullets_fields (e : Enemy) (bs : List (Nat × Bullet)) :
    (scanBullets e bs).1.x = e.x ∧ (scanBullets e bs).1.y = e.y ∧
    ((scanBullets e bs).1.alive = true → e.alive = true) := by
  rcases scanBullets_cases e bs with h | ⟨ha, h1, -⟩
  · rw [h]
    exact ⟨rfl, rfl, fun h => h⟩
  · rw [h1]
    exact ⟨rfl, rfl, fun h => Bool.noConfusion h⟩

lemma scanEnemies_fst (es : List Enemy) (bs : List (Nat × Bullet)) :
    (scanEnemies es bs).1 = es.map (fun e => (scanBullets e bs).1) := by
  induction es with
  | nil => rfl
  | cons e rest ih =>
      rw [List.map_cons, ← ih]
      rfl

lemma scanEnemies_snd (es : List Enemy) (bs : List (Nat × Bullet)) (e : Enemy) :
    (scanEnemies (e :: es) bs).2 = (scanBullets e bs).2 ++ (scanEnemies es bs).2 := rfl

lemma scanEnemies_mem_snd (es : List Enemy) (bs : List (Nat × Bullet)) (j : Nat)
    (h : j ∈ (scanEnemies es bs).2) :
    ∃ e ∈ es, e.alive = true ∧ ∃ b, (j, b) ∈ bs ∧ b.x = e.x ∧ b.y = e.y := by
  induction es with
  | nil => cases h
  | cons e rest ih =>
      rw [scanEnemies_snd, List.mem_append] at h
      rcases h with h | h
      · rcases scanBullets_cases e bs with hc | ⟨ha, -, i', b', hmem, hbx, hby, h2⟩
        · rw [hc] at h
          cases h
        · rw [h2] at h
          rcases List.mem_singleton.mp h with rfl
          exact ⟨e, List.mem_cons_self e rest, ha, b', hmem, hbx, hby⟩
      · rcases ih h with ⟨e', he', ha', b', hmem', hbx', hby'⟩
        exact ⟨e', List.mem_cons_of_mem e he', ha', b', hmem', hbx', hby'⟩

/-!  The reachable-state invariant. -/

/-- Invariant maintained by every tick: the enemy collection has exactly
3 * (current_level + 1) records, every alive enemy's x is within
[0, game_width], and no two alive enemies share a cell. -/
structure Inv (s : Game) : Prop where
  len : s.enemies.length = 3 * (s.current_level + 1)
  xbound : ∀ e ∈ s.enemies, e.alive = true → 0 ≤ e.x ∧ e.x ≤ game_width
  distinct : (s.enemies.filter (fun e => e.alive)).Pairwise cellNe

lemma inv_of_eq (s t : Game) (he : t.enemies = s.enemies)
    (hl : t.current_level = s.current_level) (h : Inv s) : Inv t := by
  refine ⟨?_, ?_, ?_⟩
  · rw [he, hl]
    exact h.len
  · rw [he]
    exact h.xbound
  · rw [he]
    exact h.distinct

lemma inv_of_init (s : Game) (hs : s.enemies = init_enemies s.current_level) :
    Inv s := by
  refine ⟨?_, ?_, ?_⟩
  · rw [hs, init_enemies_length]
  · rw [hs]
    intro e he ha
    rcases mem_init_enemies.mp he with ⟨row, hrow, col, hcol, rfl⟩
    constructor
    · simp only
      omega
    · simp only [game_width]
      omega
  · rw [hs]
    exact List.Pairwise.sublist (List.filter_sublist _)
      (init_enemies_pairwise s.current_level)

lemma inv_reset_game (s : Game) : Inv (reset_game s) :=
  inv_of_init _ rfl

lemma inv_reset_level (s : Game) : Inv (reset_level s) :=
  inv_of_init _ rfl

lemma inv_initGame : Inv initGame :=
  inv_reset_game _

lemma update_state_level (s : Game) :
    (update_state s).current_level = s.current_level := by
  unfold update_state
  split_ifs <;> rfl

lemma update_bullets_level (s : Game) :
    (update_bullets s).current_level = s.current_level := by
  unfold update_bullets
  split_ifs <;> rfl

lemma collision_check_enemy_level (s : Game) :
    (collision_check_enemy s).current_level = s.current_level := by
  unfold collision_check_enemy
  split_ifs <;> rfl

lemma collision_check_bullet_level (s : Game) :
    (collision_check_bullet s).current_level = s.current_level := by
  unfold collision_check_bullet
  split_ifs <;> rfl

lemma update_enemies_level (s : Game) :
    (update_enemies s).current_level = s.current_level := by
  unfold update_enemies
  split_ifs <;> rfl

lemma draw_phase_fields (s : Game) :
    (draw_phase s).enemies = s.enemies ∧
    (draw_phase s).current_level = s.current_level ∧
    (draw_phase s).bullets = s.bullets := by
  unfold draw_phase draw_enemies
  split_ifs <;> exact ⟨rfl, rfl, rfl⟩

lemma handle_input_playing_fields (s : Game) (k : Key)
    (hover : s.game_over = false) (hwon : s.game_won = false) :
    (handle_input s k).enemies = s.enemies ∧
    (handle_input s k).current_level = s.current_level := by
  cases k
  case quit =>
    rw [handle_input, if_pos rfl]
    · exact ⟨rfl, rfl⟩
    all_goals decide
  case left =>
    rw [handle_input_left_eq s hover hwon]
    split_ifs <;> exact ⟨rfl, rfl⟩
  case right =>
    rw [handle_input_right_eq s hover hwon]
    split_ifs <;> exact ⟨rfl, rfl⟩
  case none =>
    rw [handle_input_none_eq s hover hwon]
    exact ⟨rfl, rfl⟩
  case reset =>
    rw [handle_input, if_neg (by decide), if_neg (by simp [hover, hwon])]
    · exact ⟨rfl, rfl⟩
    all_goals decide
  case fire =>
    rw [handle_input, if_neg (by decide), if_neg (by simp [hover, hwon])]
    split_ifs <;> exact ⟨rfl, rfl⟩

lemma inv_update_state (s : Game) (h : Inv s) : Inv (update_state s) :=
  inv_of_eq s _ (update_state_fields s).1 (update_state_level s) h

lemma inv_handle_input (s : Game) (k : Key) (h : Inv s) :
    Inv (handle_input s k) := by
  by_cases hterm : s.game_over = true ∨ s.game_won = true
  · by_cases hk : k = Key.reset
    · subst hk
      have hbranch : handle_input s Key.reset =
          reset_game { s with current_level := 1 } := by
        rw [handle_input, if_neg (by decide), if_pos (by simpa using hterm),
          if_pos rfl]
        all_goals decide
      rw [hbranch]
      exact inv_reset_game _
    · rcases handle_input_terminal s k hterm hk with h2 | h2 <;> rw [h2]
      · exact h
      · exact inv_of_eq s _ rfl rfl h
  · rw [not_or] at hterm
    have hover : s.game_over = false := by
      simpa using hterm.1
    have hwon : s.game_won = false := by
      simpa using hterm.2
    have hf := handle_input_playing_fields s k hover hwon
    exact inv_of_eq s _ hf.1 hf.2 h

lemma inv_update_enemies (s : Game) (h : Inv s) : Inv (update_enemies s) := by
  rw [update_enemies]
  by_cases h1 : s.game_over = false ∧ s.counter % s.update_freq = 0
  case neg =>
    rw [if_neg h1]
    exact h
  rw [if_pos h1]
  by_cases h2 : s.enemies.any (fun e => e.alive) = true
  case neg =>
    rw [if_neg h2]
    exact h
  rw [if_pos h2]
  by_cases h3 : s.enemy_direction = Dir.right ∧
      max_of (alive_xs s.enemies) ≥ game_width - 2
  · rw [if_pos h3]
    refine ⟨?_, ?_, ?_⟩
    · simpa using h.len
    · intro e' he' ha'
      rcases List.mem_map.mp he' with ⟨e, he, rfl⟩
      by_cases hea : e.alive = true
      · simp only [hea, if_true]
        exact h.xbound e he hea
      · simp only [hea, if_false] at ha' ⊢
        exact h.xbound e he ha'
    · apply pairwise_filter_map _ _ ?ha ?hc h.distinct
      · intro e ha
        by_cases hea : e.alive = true
        · exact hea
        · simp only [hea, if_false] at ha
          exact ha
      · intro a b haa hba hne
        simp only [haa, hba, if_true]
        intro hc
        have hy : a.y + 1 = b.y + 1 := hc.2
        exact hne ⟨hc.1, by omega⟩
  rw [if_neg h3]
  by_cases h4 : s.enemy_direction = Dir.left ∧ min_of (alive_xs s.enemies) ≤ 1
  · rw [if_pos h4]
    refine ⟨?_, ?_, ?_⟩
    · simpa using h.len
    · intro e' he' ha'
      rcases List.mem_map.mp he' with ⟨e, he, rfl⟩
      by_cases hea : e.alive = true
      · simp only [hea, if_true]
        exact h.xbound e he hea
      · simp only [hea, if_false] at ha' ⊢
        exact h.xbound e he ha'
    · apply pairwise_filter_map _ _ ?ha2 ?hc2 h.distinct
      · intro e ha
        by_cases hea : e.alive = true
        · exact hea
        · simp only [hea, if_false] at ha
          exact ha
      · intro a b haa hba hne
        simp only [haa, hba, if_true]
        intro hc
        have hy : a.y + 1 = b.y + 1 := hc.2
        exact hne ⟨hc.1, by omega⟩
  rw [if_neg h4]
  have hdircases : s.enemy_direction = Dir.right ∨ s.enemy_direction = Dir.left := by
    cases hd : s.enemy_direction
    · exact Or.inr rfl
    · exact Or.inl rfl
  refine ⟨?_, ?_, ?_⟩
  · simpa using h.len
  · intro e' he' ha'
    rcases List.mem_map.mp he' with ⟨e, he, rfl⟩
    by_cases hea : e.alive = true
    · simp only [hea, if_true]
      have hx := h.xbound e he hea
      rcases hdircases with hd | hd
      · rw [hd]
        simp only [if_pos rfl]
        have hmax : e.x ≤ max_of (alive_xs s.enemies) :=
          le_max_of_mem (mem_alive_xs he hea)
        have hlt : max_of (alive_xs s.enemies) < game_width - 2 := by
          by_contra hge
          exact h3 ⟨hd, by omega⟩
        simp only [game_width] at hx hlt
        constructor
        · show (0 : Int) ≤ e.x + 1
          omega
        · show e.x + 1 ≤ game_width
          simp only [game_width]
          omega
      · rw [hd]
        rw [if_neg (by decide)]
        have hmin : min_of (alive_xs s.enemies) ≤ e.x :=
          min_of_le_mem (mem_alive_xs he hea)
        have hgt : 1 < min_of (alive_xs s.enemies) := by
          by_contra hle
          exact h4 ⟨hd, by omega⟩
        simp only [game_width] at hx
        constructor
        · show (0 : Int) ≤ e.x + -1
          omega
        · show e.x + -1 ≤ game_width
          simp only [game_width]
          omega
    · simp only [hea, if_false] at ha' ⊢
      exact h.xbound e he ha'
  · apply pairwise_filter_map _ _ ?ha3 ?hc3 h.distinct
    · intro e ha
      by_cases hea : e.alive = true
      · exact hea
      · simp only [hea, if_false] at ha
        exact ha
    · intro a b haa hba hne
      simp only [haa, hba, if_true]
      intro hc
      have hx : a.x + (if s.enemy_direction = Dir.right then (1 : Int) else -1)
          = b.x + (if s.enemy_direction = Dir.right then (1 : Int) else -1) := hc.1
      exact hne ⟨by omega, hc.2⟩

lemma inv_update_bullets (s : Game) (h : Inv s) : Inv (update_bullets s) :=
  inv_of_eq s _ (update_bullets_flags s).2.2.1 (update_bullets_level s) h

lemma inv_collision_check_enemy (s : Game) (h : Inv s) :
    Inv (collision_check_enemy s) :=
  inv_of_eq s _ (collision_check_enemy_fields s).1 (collision_check_enemy_level s) h

lemma collision_check_bullet_enemies (s : Game) (hover : s.game_over = false) :
    (collision_check_bullet s).enemies =
      s.enemies.map (fun e => (scanBullets e s.bullets.enum).1) := by
  rw [collision_check_bullet, if_pos hover]
  exact scanEnemies_fst s.enemies s.bullets.enum

lemma inv_collision_check_bullet (s : Game) (h : Inv s) :
    Inv (collision_check_bullet s) := by
  by_cases hover : s.game_over = false
  · have henem := collision_check_bullet_enemies s hover
    refine ⟨?_, ?_, ?_⟩
    · rw [henem, List.length_map, collision_check_bullet_level]
      exact h.len
    · rw [henem]
      intro e' he' ha'
      rcases List.mem_map.mp he' with ⟨e, he, rfl⟩
      have hf := scanBullets_fields e s.bullets.enum
      rw [hf.1]
      exact h.xbound e he (hf.2.2 ha')
    · rw [henem]
      apply pairwise_filter_map _ _ ?ha ?hc h.distinct
      · intro e ha
        exact (scanBullets_fields e s.bullets.enum).2.2 ha
      · intro a b haa hba hne
        have hfa := scanBullets_fields a s.bullets.enum
        have hfb := scanBullets_fields b s.bullets.enum
        rw [cellNe, hfa.1, hfa.2.1, hfb.1, hfb.2.1]
        exact hne
  · have hov : s.game_over = true := by
      cases hb : s.game_over
      · exact absurd hb hover
      · rfl
    rw [collision_check_bullet, if_neg (by rw [hov]; decide)]
    exact h

lemma inv_check_enemies (s : Game) (h : Inv s) : Inv (check_enemies s) := by
  rw [check_enemies]
  by_cases h1 : ¬ s.enemies.any (fun e => e.alive) = true
  · rw [if_pos h1]
    by_cases h2 : s.current_level < max_level
    · rw [if_pos h2]
      exact inv_reset_level _
    · rw [if_neg h2]
      exact inv_of_eq s _ rfl rfl h
  · rw [if_neg h1]
    exact h

lemma inv_draw_phase (s : Game) (h : Inv s) : Inv (draw_phase s) :=
  inv_of_eq s _ (draw_phase_fields s).1 (draw_phase_fields s).2.1 h

lemma inv_step (s : Game) (k : Key) (h : Inv s) : Inv (step s k) := by
  by_cases hterm : (handle_input (update_state s) k).game_over = true ∨
      (handle_input (update_state s) k).game_won = true
  · have hstep : step s k = draw_phase (handle_input (update_state s) k) := by
      simp only [step]
      rw [if_pos hterm]
    rw [hstep]
    exact inv_draw_phase _ (inv_handle_input _ k (inv_update_state s h))
  · rw [not_or] at hterm
    have hover : (handle_input (update_state s) k).game_over = false := by
      simpa using hterm.1
    have hwon : (handle_input (update_state s) k).game_won = false := by
      simpa using hterm.2
    rw [step_playing_eq s k hover hwon]
    exact inv_draw_phase _ (inv_check_enemies _ (inv_collision_check_bullet _
      (inv_collision_check_enemy _ (inv_update_bullets _ (inv_update_enemies _
        (inv_handle_input _ k (inv_update_state s h)))))))

/-- States reachable from the constructor's initial state by iterating the
run loop with arbitrary polled keys. -/
inductive Reachable : Game → Prop where
  | init : Reachable initGame
  | step : ∀ s k, Reachable s → Reachable (step s k)

lemma reachable_inv {s : Game} (h : Reachable s) : Inv s := by
  induction h with
  | init => exact inv_initGame
  | step s k _ ih => exact inv_step s k ih

/-!  Index-wise monotonicity of enemy rows across a tick. -/

/-- Same collection shape with index-wise non-decreasing rows. -/
def enemies_y_mono (old new : List Enemy) : Prop :=
  new.length = old.length ∧
  ∀ (i : Fin old.length) (j : Fin new.length), i.val = j.val →
    (old.get i).y ≤ (new.get j).y

lemma enemies_y_mono_refl (l : List Enemy) : enemies_y_mono l l := by
  refine ⟨rfl, ?_⟩
  intro i j hij
  have h : i = j := Fin.ext hij
  subst h
  exact le_refl _

lemma enemies_y_mono_of_eq {a b : List Enemy} (h : b = a) : enemies_y_mono a b := by
  subst h
  exact enemies_y_mono_refl _

lemma enemies_y_mono_trans {a b c : List Enemy}
    (h1 : enemies_y_mono a b) (h2 : enemies_y_mono b c) : enemies_y_mono a c := by
  refine ⟨h2.1.trans h1.1, ?_⟩
  intro i k hik
  have hj : i.val < b.length := by
    rw [h1.1]
    exact i.isLt
  exact le_trans (h1.2 i ⟨i.val, hj⟩ rfl) (h2.2 ⟨i.val, hj⟩ k hik)

lemma enemies_y_mono_map (l : List Enemy) (f : Enemy → Enemy)
    (hy : ∀ e, e.y ≤ (f e).y) : enemies_y_mono l (l.map f) := by
  refine ⟨by simp, ?_⟩
  intro i j hij
  rw [get_map_of_val_eq f l i j hij]
  exact hy _

lemma update_enemies_mono (s : Game) :
    enemies_y_mono s.enemies (update_enemies s).enemies := by
  rw [update_enemies]
  by_cases h1 : s.game_over = false ∧ s.counter % s.update_freq = 0
  case neg =>
    rw [if_neg h1]
    exact enemies_y_mono_refl _
  rw [if_pos h1]
  by_cases h2 : s.enemies.any (fun e => e.alive) = true
  case neg =>
    rw [if_neg h2]
    exact enemies_y_mono_refl _
  rw [if_pos h2]
  by_cases h3 : s.enemy_direction = Dir.right ∧
      max_of (alive_xs s.enemies) ≥ game_width - 2
  · rw [if_pos h3]
    apply enemies_y_mono_map
    intro e
    by_cases hea : e.alive = true
    · simp only [hea, if_true]
      show e.y ≤ e.y + 1
      omega
    · simp only [hea, if_false]
      exact le_refl _
  rw [if_neg h3]
  by_cases h4 : s.enemy_direction = Dir.left ∧ min_of (alive_xs s.enemies) ≤ 1
  · rw [if_pos h4]
    apply enemies_y_mono_map
    intro e
    by_cases hea : e.alive = true
    · simp only [hea, if_true]
      show e.y ≤ e.y + 1
      omega
    · simp only [hea, if_false]
      exact le_refl _
  rw [if_neg h4]
  apply enemies_y_mono_map
  intro e
  by_cases hea : e.alive = true
  · simp only [hea, if_true]
    exact le_refl _
  · simp only [hea, if_false]
    exact le_refl _

lemma collision_check_bullet_mono (s : Game) :
    enemies_y_mono s.enemies (collision_check_bullet s).enemies := by
  by_cases hover : s.game_over = false
  · rw [collision_check_bullet_enemies s hover]
    apply enemies_y_mono_map
    intro e
    exact le_of_eq ((scanBullets_fields e s.bullets.enum).2.1).symm
  · rw [collision_check_bullet, if_neg hover]
    exact enemies_y_mono_refl _

lemma handle_input_enemies_eq (t : Game) (k : Key)
    (h : ¬ (k = Key.reset ∧ (t.game_over = true ∨ t.game_won = true))) :
    (handle_input t k).enemies = t.enemies := by
  by_cases hterm : t.game_over = true ∨ t.game_won = true
  · have hk : k ≠ Key.reset := by
      intro hkk
      exact h ⟨hkk, hterm⟩
    rcases handle_input_terminal t k hterm hk with h2 | h2 <;> rw [h2]
  · rw [not_or] at hterm
    exact (handle_input_playing_fields t k (by simpa using hterm.1)
      (by simpa using hterm.2)).1

lemma check_enemies_enemies_eq (t : Game)
    (h : t.enemies.any (fun e => e.alive) = true ∨
      ¬ t.current_level < max_level) :
    (check_enemies t).enemies = t.enemies := by
  rw [check_enemies]
  by_cases h1 : ¬ t.enemies.any (fun e => e.alive) = true
  · rw [if_pos h1]
    rcases h with h | h
    · exact absurd h h1
    · rw [if_neg h]
  · rw [if_neg h1]

lemma check_enemies_enemies_cases (s : Game) :
    (check_enemies s).enemies = s.enemies ∨
    (check_enemies s).enemies = init_enemies (s.current_level + 1) := by
  rw [check_enemies]
  by_cases h1 : ¬ s.enemies.any (fun e => e.alive) = true
  · rw [if_pos h1]
    by_cases h2 : s.current_level < max_level
    · rw [if_pos h2]
      exact Or.inr rfl
    · rw [if_neg h2]
      exact Or.inl rfl
  · rw [if_neg h1]
    exact Or.inl rfl

/-- Monotonicity of enemy rows across the whole movement/collision part
of the update phase. -/
lemma update_phase_mono (t : Game) :
    enemies_y_mono t.enemies (collision_check_bullet (collision_check_enemy
      (update_bullets (update_enemies t)))).enemies := by
  apply enemies_y_mono_trans (update_enemies_mono _)
  apply enemies_y_mono_trans (enemies_y_mono_of_eq
    (update_bullets_flags _).2.2.1)
  apply enemies_y_mono_trans (enemies_y_mono_of_eq
    (collision_check_enemy_fields _).1)
  exact collision_check_bullet_mono _

/-- Condition under which a tick re-creates the enemy collection: either
the reset key is accepted (the state is terminal when `handle_input`
runs), or the level evaluation fires (Playing after input, no alive enemy
left when `check_enemies` runs, level below the maximum).  These are the
only two places a tick replaces the enemy records. -/
def tick_reinit (s : Game) (k : Key) : Prop :=
  (k = Key.reset ∧
    ((update_state s).game_over = true ∨ (update_state s).game_won = true)) ∨
  (((handle_input (update_state s) k).game_over = false ∧
    (handle_input (update_state s) k).game_won = false) ∧
   (collision_check_bullet (collision_check_enemy (update_bullets (update_enemies
      (handle_input (update_state s) k))))).enemies.any
        (fun e => e.alive) = false ∧
   (collision_check_bullet (collision_check_enemy (update_bullets (update_enemies
      (handle_input (update_state s) k))))).current_level < max_level)

lemma step_mono_of_not_reinit (s : Game) (k : Key) (h : ¬ tick_reinit s k) :
    enemies_y_mono s.enemies (step s k).enemies := by
  rw [tick_reinit, not_or] at h
  have hs2 : (handle_input (update_state s) k).enemies = s.enemies := by
    rw [handle_input_enemies_eq (update_state s) k h.1, (update_state_fields s).1]
  by_cases hterm : (handle_input (update_state s) k).game_over = true ∨
      (handle_input (update_state s) k).game_won = true
  · have hstep : step s k = draw_phase (handle_input (update_state s) k) := by
      simp only [step]
      rw [if_pos hterm]
    rw [hstep, (draw_phase_fields _).1, hs2]
    exact enemies_y_mono_refl _
  · rw [not_or] at hterm
    have hover : (handle_input (update_state s) k).game_over = false := by
      simpa using hterm.1
    have hwon : (handle_input (update_state s) k).game_won = false := by
      simpa using hterm.2
    rw [step_playing_eq s k hover hwon, (draw_phase_fields _).1]
    have hnl : (collision_check_bullet (collision_check_enemy (update_bullets
        (update_enemies (handle_input (update_state s) k))))).enemies.any
          (fun e => e.alive) = true ∨
        ¬ (collision_check_bullet (collision_check_enemy (update_bullets
          (update_enemies (handle_input (update_state s) k))))).current_level
            < max_level := by
      by_contra hcon
      rw [not_or] at hcon
      apply h.2
      refine ⟨⟨hover, hwon⟩, ?_, not_not.mp hcon.2⟩
      cases hb : (collision_check_bullet (collision_check_enemy (update_bullets
          (update_enemies (handle_input (update_state s) k))))).enemies.any
            (fun e => e.alive)
      · rfl
      · exact absurd hb hcon.1
    rw [check_enemies_enemies_eq _ hnl]
    have hchain := update_phase_mono (handle_input (update_state s) k)
    rw [hs2] at hchain
    exact hchain

lemma step_init_of_reinit (s : Game) (k : Key) (h : tick_reinit s k) :
    ∃ lvl, enemies_y_mono (init_enemies lvl) (step s k).enemies := by
  rcases h with ⟨hk, hterm⟩ | ⟨⟨hover, hwon⟩, hdead, hlvl⟩
  · subst hk
    have hbranch : handle_input (update_state s) Key.reset =
        reset_game { update_state s with current_level := 1 } := by
      rw [handle_input, if_neg (by decide), if_pos (by simpa using hterm),
        if_pos rfl]
      all_goals decide
    have hover : (handle_input (update_state s) Key.reset).game_over = false := by
      rw [hbranch]
      rfl
    have hwon : (handle_input (update_state s) Key.reset).game_won = false := by
      rw [hbranch]
      rfl
    have hs2 : (handle_input (update_state s) Key.reset).enemies
        = init_enemies 1 := by
      rw [hbranch]
      rfl
    rw [step_playing_eq s Key.reset hover hwon, (draw_phase_fields _).1]
    have hchain := update_phase_mono (handle_input (update_state s) Key.reset)
    rw [hs2] at hchain
    rcases check_enemies_enemies_cases (collision_check_bullet
        (collision_check_enemy (update_bullets (update_enemies
          (handle_input (update_state s) Key.reset))))) with hc | hc <;> rw [hc]
    · exact ⟨1, hchain⟩
    · exact ⟨_, enemies_y_mono_refl _⟩
  · rw [step_playing_eq s k hover hwon, (draw_phase_fields _).1]
    have hre : (check_enemies (collision_check_bullet (collision_check_enemy
        (update_bullets (update_enemies
          (handle_input (update_state s) k)))))).enemies
        = init_enemies ((collision_check_bullet (collision_check_enemy
          (update_bullets (update_enemies
            (handle_input (update_state s) k))))).current_level + 1) := by
      rw [check_enemies, if_pos (by simp [hdead]), if_pos hlvl]
      rfl
    rw [hre]
    exact ⟨_, enemies_y_mono_refl _⟩

/-- C9: in every reachable state every alive enemy's x lies in
[0, game_width]; and enemy rows never decrease over an enemy's lifetime:
on every tick that does not re-create the enemy collection (no accepted
reset and no level-clear re-initialization, i.e. `¬ tick_reinit`) the
collection keeps its length and every enemy's row is index-wise
non-decreasing — enemies only move down or sideways, never up; a tick
that does re-create the collection starts fresh lifetimes from a
formation init, whose rows can likewise only grow within that tick. -/
theorem C9_enemy_invariants (s : Game) (hreach : Reachable s) :
    (∀ e ∈ s.enemies, e.alive = true → 0 ≤ e.x ∧ e.x ≤ game_width) ∧
    (∀ k : Key, ¬ tick_reinit s k →
      enemies_y_mono s.enemies (step s k).enemies) ∧
    (∀ k : Key, tick_reinit s k →
      ∃ lvl, enemies_y_mono (init_enemies lvl) (step s k).enemies) :=
  ⟨(reachable_inv hreach).xbound, fun k => step_mono_of_not_reinit s k,
    fun k => step_init_of_reinit s k⟩

theorem C9_enemy_invariants_witness :
    (0 ≤ ({ x := 3, y := 2, alive := true } : Enemy).x ∧
      ({ x := 3, y := 2, alive := true } : Enemy).x ≤ game_width) ∧
    enemies_y_mono initGame.enemies (step initGame Key.none).enemies := by
  have h := C9_enemy_invariants initGame Reachable.init
  refine ⟨h.1 { x := 3, y := 2, alive := true } (by decide) (by decide),
    h.2.1 Key.none ?_⟩
  unfold tick_reinit
  decide

/-- C10: in every reachable state the enemy collection holds exactly
3 * (current_level + 1) records; a fresh formation for any level has
exactly that many records, all alive, at pairwise-distinct cells; and the
bullet-collision pass keeps the collection's length and, record by
record, either leaves the record entirely unchanged or — only for an
enemy that was alive and whose cell some bullet of this tick occupies —
changes exactly its alive flag from true to false: a hit never removes a
record, never moves an enemy, and never touches an unstruck enemy. -/
theorem C10_enemy_collection (s : Game) (hreach : Reachable s) :
    s.enemies.length = 3 * (s.current_level + 1) ∧
    (∀ lvl : Nat, (init_enemies lvl).length = 3 * (lvl + 1) ∧
      (∀ e ∈ init_enemies lvl, e.alive = true) ∧
      (init_enemies lvl).Pairwise cellNe) ∧
    (collision_check_bullet s).enemies.length = s.enemies.length ∧
    List.Forall₂ (fun old new => new = old ∨
        (old.alive = true ∧ new = { old with alive := false } ∧
          ∃ b ∈ s.bullets, b.x = old.x ∧ b.y = old.y))
      s.enemies (collision_check_bullet s).enemies := by
  refine ⟨(reachable_inv hreach).len, ?_, ?_, ?_⟩
  · intro lvl
    exact ⟨init_enemies_length lvl, init_enemies_alive, init_enemies_pairwise lvl⟩
  · by_cases hover : s.game_over = false
    · rw [collision_check_bullet_enemies s hover, List.length_map]
    · rw [collision_check_bullet, if_neg hover]
  · by_cases hover : s.game_over = false
    · rw [collision_check_bullet_enemies s hover, List.forall₂_map_right_iff,
        List.forall₂_same]
      intro e he
      rcases scanBullets_cases e s.bullets.enum with
        hc | ⟨hal, h1, i, b, hmem, hbx, hby, -⟩
      · left
        rw [hc]
      · right
        refine ⟨hal, h1, b, ?_, hbx, hby⟩
        rw [List.mem_enum_iff_getElem?] at hmem
        exact List.getElem?_mem hmem
    · rw [collision_check_bullet, if_neg hover, List.forall₂_same]
      intro e he
      exact Or.inl rfl

theorem C10_enemy_collection_witness :
    initGame.enemies.length = 3 * (initGame.current_level + 1) ∧
    (collision_check_bullet initGame).enemies.length = initGame.enemies.length := by
  have h := C10_enemy_collection initGame Reachable.init
  exact ⟨h.1, h.2.2.1⟩

/-!  At most one kill per bullet. -/

lemma hdist_tail {e : Enemy} {rest : List Enemy}
    (hdist : ((e :: rest).filter (fun e => e.alive)).Pairwise cellNe) :
    (rest.filter (fun e => e.alive)).Pairwise cellNe := by
  by_cases he : e.alive = true
  · rw [List.filter_cons_of_pos he] at hdist
    exact (List.pairwise_cons.mp hdist).2
  · rw [List.filter_cons_of_neg he] at hdist
    exact hdist

lemma scanEnemies_count_le_one (es : List Enemy) (bs : List (Nat × Bullet))
    (hkey : ∀ (i : Nat) (b b' : Bullet), (i, b) ∈ bs → (i, b') ∈ bs → b = b')
    (hdist : (es.filter (fun e => e.alive)).Pairwise cellNe) :
    ∀ i : Nat, ((scanEnemies es bs).2).count i ≤ 1 := by
  induction es with
  | nil =>
      intro i
      simp [scanEnemies]
  | cons e rest ih =>
      intro i
      rw [scanEnemies_snd, List.count_append]
      rcases scanBullets_cases e bs with hc | ⟨hal, -, i0, b0, hmem, hbx, hby, h2⟩
      · simp only [hc, List.count_nil, Nat.zero_add]
        exact ih (hdist_tail hdist) i
      · rw [h2]
        by_cases hi : i = i0
        · subst hi
          have hzero : ((scanEnemies rest bs).2).count i = 0 := by
            rw [List.count_eq_zero]
            intro hmem'
            rcases scanEnemies_mem_snd rest bs i hmem' with
              ⟨e', he', ha', b', hmem'', hbx', hby'⟩
            have hb : b' = b0 := hkey i b' b0 hmem'' hmem
            have hcell : e.x = e'.x ∧ e.y = e'.y := by
              constructor
              · rw [← hbx, ← hb]
                exact hbx'
              · rw [← hby, ← hb]
                exact hby'
            rw [List.filter_cons_of_pos hal] at hdist
            exact (List.pairwise_cons.mp hdist).1 e'
              (List.mem_filter.mpr ⟨he', ha'⟩) hcell
          rw [hzero, List.count_singleton]
          simp
        · have hzero : ([i0].count i) = 0 := by
            rw [List.count_singleton, if_neg]
            simp [Ne.symm hi]
          rw [hzero, Nat.zero_add]
          exact ih (hdist_tail hdist) i

lemma scanEnemies_alive_count (es : List Enemy) (bs : List (Nat × Bullet)) :
    (es.filter (fun e => e.alive)).length =
      (((scanEnemies es bs).1).filter (fun e => e.alive)).length +
        ((scanEnemies es bs).2).length := by
  induction es with
  | nil => rfl
  | cons e rest ih =>
      rw [show (scanEnemies (e :: rest) bs).1
          = (scanBullets e bs).1 :: (scanEnemies rest bs).1 from rfl,
        scanEnemies_snd, List.length_append]
      rcases scanBullets_cases e bs with hc | ⟨hal, h1, i0, b0, -, -, -, h2⟩
      · simp only [hc]
        by_cases he : e.alive = true
        · rw [@List.filter_cons_of_pos Enemy (fun e => e.alive) e rest he,
            @List.filter_cons_of_pos Enemy (fun e => e.alive) e
              ((scanEnemies rest bs).1) he]
          simp only [List.length_cons, List.length_nil]
          omega
        · rw [@List.filter_cons_of_neg Enemy (fun e => e.alive) e rest he,
            @List.filter_cons_of_neg Enemy (fun e => e.alive) e
              ((scanEnemies rest bs).1) he]
          simpa using ih
      · rw [h1, h2]
        rw [@List.filter_cons_of_pos Enemy (fun e => e.alive) e rest hal,
          @List.filter_cons_of_neg Enemy (fun e => e.alive)
            { e with alive := false } ((scanEnemies rest bs).1) (by simp)]
        simp only [List.length_cons, List.length_singleton, List.length_nil]
        omega

/-- C2: in a reachable Playing state, the bullet-enemy collision pass
records each bullet index at most once in the removal list (each bullet
kills at most one enemy: alive enemies occupy pairwise-distinct cells, so
a bullet matches at most one of them, and once an enemy is marked dead it
is skipped for the rest of the scan), the number of enemies that lose
their alive flag equals the number of removal records, and the surviving
bullets are the original collection pruned by the removal set only after
the whole scan is finished. -/
theorem C2_bullet_single_kill (s : Game) (hreach : Reachable s)
    (hover : s.game_over = false) :
    (∀ i : Nat, ((scanEnemies s.enemies s.bullets.enum).2).count i ≤ 1) ∧
    (s.enemies.filter (fun e => e.alive)).length =
      (((collision_check_bullet s).enemies).filter (fun e => e.alive)).length +
        ((scanEnemies s.enemies s.bullets.enum).2).length ∧
    (collision_check_bullet s).bullets =
      prune s.bullets (scanEnemies s.enemies s.bullets.enum).2 := by
  have hdist := (reachable_inv hreach).distinct
  have hkey : ∀ (i : Nat) (b b' : Bullet),
      (i, b) ∈ s.bullets.enum → (i, b') ∈ s.bullets.enum → b = b' := by
    intro i b b' h h'
    rw [List.mem_enum_iff_getElem?] at h h'
    rw [h] at h'
    exact Option.some_inj.mp h'
  refine ⟨scanEnemies_count_le_one s.enemies s.bullets.enum hkey hdist, ?_, ?_⟩
  · have hen : (collision_check_bullet s).enemies
        = (scanEnemies s.enemies s.bullets.enum).1 := by
      rw [collision_check_bullet, if_pos hover]
    rw [hen]
    exact scanEnemies_alive_count s.enemies s.bullets.enum
  · rw [collision_check_bullet, if_pos hover]

/-- Concrete reachable state with a bullet in flight: one tick with the
fire key from the initial state. -/
def C2state : Game := step initGame Key.fire

theorem C2_bullet_single_kill_witness :
    ((scanEnemies C2state.enemies C2state.bullets.enum).2).count 0 ≤ 1 ∧
    (C2state.enemies.filter (fun e => e.alive)).length =
      (((collision_check_bullet C2state).enemies).filter (fun e => e.alive)).length +
        ((scanEnemies C2state.enemies C2state.bullets.enum).2).length := by
  have h := C2_bullet_single_kill C2state
    (Reachable.step initGame Key.fire Reachable.init) (by decide)
  exact ⟨h.1 0, h.2.1⟩

end SpaceInvaders
